import Mathlib

/-!
Verification of the cli-agent repository's core: the text-edit engine
(`tools/files.go`, function `EditFile` and relatives), the tool dispatcher
(`Agent.executeTool` / `Agent.ExecuteTool`), the conversation orchestrator
loop (`tui/chat.go`, `model.Run`), and directory listing (`ListFiles`).

File content is modelled as `List Char`; the file system that the tools
mutate is modelled as explicit state passed through every call.  Go standard
library string primitives (`strings.Count`, `strings.Replace`,
`strings.Contains`, `strings.Split`, `strings.Join`) are re-implemented on
`List Char` with their documented semantics (non-overlapping, leftmost
matches); the empty-pattern corner cases of `Count`/`Replace` differ in Go
(they operate per rune boundary) but are unreachable through `EditFile`,
which rejects empty `old_str` before calling them.
-/

namespace CliAgent

/-! ## Go string primitives on `List Char` -/

/-- `strings.Split(s, "\n")`: split on newline; always returns at least one
(possibly empty) line. -/
def splitOnNl : List Char → List (List Char)
  | [] => [[]]
  | c :: rest =>
    match splitOnNl rest with
    | [] => [[]]
    | l :: ls => if c = '\n' then [] :: l :: ls else (c :: l) :: ls

/-- `strings.Join(lines, "\n")`. -/
def joinNl (ls : List (List Char)) : List Char :=
  List.intercalate ['\n'] ls

/-- `strings.Contains(s, pat)`: `pat` occurs somewhere in `s` as a
contiguous substring. -/
def containsSub (pat : List Char) : List Char → Bool
  | [] => pat.isPrefixOf ([] : List Char)
  | c :: rest => pat.isPrefixOf (c :: rest) || containsSub pat rest

/-- Worker for `countOccs`: the `Nat` argument is the number of characters
still to be skipped because they belong to the previously counted match
(Go's `Count` counts non-overlapping instances, resuming after each match). -/
def countOccsAux (pat : List Char) : List Char → Nat → Nat
  | [], _ => 0
  | c :: rest, 0 =>
    if pat.isPrefixOf (c :: rest) && !pat.isEmpty then
      1 + countOccsAux pat rest (pat.length - 1)
    else
      countOccsAux pat rest 0
  | _ :: rest, k + 1 => countOccsAux pat rest k

/-- `strings.Count(s, pat)` for non-empty `pat`: number of non-overlapping,
leftmost-first instances of `pat` in `s`. -/
def countOccs (pat s : List Char) : Nat :=
  countOccsAux pat s 0

/-- Worker for `replaceAll`: the `Nat` argument is the number of characters
still to be dropped because they belong to the previously replaced match. -/
def replaceAllAux (pat rep : List Char) : List Char → Nat → List Char
  | [], _ => []
  | c :: rest, 0 =>
    if pat.isPrefixOf (c :: rest) && !pat.isEmpty then
      rep ++ replaceAllAux pat rep rest (pat.length - 1)
    else
      c :: replaceAllAux pat rep rest 0
  | _ :: rest, k + 1 => replaceAllAux pat rep rest k

/-- `strings.Replace(s, pat, rep, -1)` for non-empty `pat`: replace every
non-overlapping, leftmost-first instance of `pat` by `rep`. -/
def replaceAll (pat rep s : List Char) : List Char :=
  replaceAllAux pat rep s 0

/-! ## JSON values and decoding

`json.RawMessage` inputs are modelled as already-parsed JSON values
(numbers restricted to integers, which is all the tool inputs use).
`json.Unmarshal` into a tool's input struct is modelled field by field:
missing fields keep the Go zero value, a field of the wrong JSON type or a
non-object top level is a decode error.  Duplicate keys are not modelled
(`List.lookup` takes the first binding). -/

inductive Json where
  | null
  | bool (b : Bool)
  | num (n : Int)
  | str (s : String)
  | arr (elems : List Json)
  | obj (fields : List (String × Json))

/-- Decode an optional string field: absent means Go's zero value `""`. -/
def getStrField (fields : List (String × Json)) (name : String) :
    Except String String :=
  match fields.lookup name with
  | none => .ok ""
  | some (.str s) => .ok s
  | some _ => .error ("json: cannot unmarshal field " ++ name)

/-- Decode an optional boolean field: absent means Go's zero value `false`. -/
def getBoolField (fields : List (String × Json)) (name : String) :
    Except String Bool :=
  match fields.lookup name with
  | none => .ok false
  | some (.bool b) => .ok b
  | some _ => .error ("json: cannot unmarshal field " ++ name)

/-- Decode an optional `*int` field: absent means Go's zero value `nil`. -/
def getOptIntField (fields : List (String × Json)) (name : String) :
    Except String (Option Int) :=
  match fields.lookup name with
  | none => .ok none
  | some (.num n) => .ok (some n)
  | some _ => .error ("json: cannot unmarshal field " ++ name)

/-! ## File system state and the edit engine -/

/-- The file system seen by the tools: a partial map from path to file
content.  `os.ReadFile` is lookup, `os.WriteFile` is `writeFS`. -/
def FS : Type := String → Option (List Char)

/-- `os.WriteFile(path, content, 0644)`. -/
def writeFS (fs : FS) (path : String) (content : List Char) : FS :=
  fun p => if p = path then some content else fs p

/-- The decoded `EditFileInput` struct (`tools/files.go`).  Absent string
fields decode to `""` and the absent `*int` to `none`, as in Go. -/
structure EditFileInput where
  path : String
  mode : String
  old_str : List Char
  new_str : List Char
  line_number : Option Int

/-- The line-search loop of `EditFile`'s line-based modes
(`for i, line := range lines { if strings.Contains(line, old_str) ... }`):
indices (from `start`) of the lines containing `old`.  Go keeps the last
matching index as `targetLine` and the number of matches as `matchCount`;
those are the last element and the length of this list. -/
def matchLinesAux (old : List Char) : List (List Char) → Nat → List Nat
  | [], _ => []
  | l :: rest, i =>
    if containsSub old l then i :: matchLinesAux old rest (i + 1)
    else matchLinesAux old rest (i + 1)

/-- The `targetLine` computation of `EditFile`'s line-based modes
(lines 352-380 of `tools/files.go`): an explicit `line_number` is used
directly and must be within `[1, lineCount]`; otherwise `old_str` is
required and must match exactly one line.  Go's early `return`s become the
error component. -/
def resolveTarget (mode : String) (old : List Char) (ln : Option Int)
    (lines : List (List Char)) : Except String Nat :=
  match ln with
  | some n =>
    if n < 1 ∨ n > (lines.length : Int) then
      .error ("line_number " ++ toString n ++
        " is out of range (1-" ++ toString lines.length ++ ")")
    else .ok (n - 1).toNat
  | none =>
    if old = [] then
      .error ("either old_str or line_number is required for " ++
        mode ++ " mode")
    else
      let matchIdxs := matchLinesAux old lines 0
      if matchIdxs.length = 0 then
        .error "old_str not found in file"
      else if matchIdxs.length > 1 then
        .error ("old_str found in " ++ toString matchIdxs.length ++
          " lines, expected exactly 1 for safety")
      else .ok (matchIdxs.getLastD 0)

/-- The `validModes` slice in `EditFile`. -/
def validModes : List String :=
  ["replace", "insert_after", "insert_before", "append", "prepend",
   "delete_line"]

/-- `EditFile` (`tools/files.go`), translated line by line: validates path
and mode, reads the file at `input.path` itself, applies the mode-dependent
transformation and writes the result back itself.  Go's early `return`s
become the error components; the two `os.WriteFile` call sites (one in the
`replace` case, one shared by the line-based modes) become `writeFS`. -/
def EditFile (fs : FS) (input : EditFileInput) : FS × Except String String :=
  if input.path = "" then (fs, .error "path is required")
  else if input.mode = "" then (fs, .error "mode is required")
  else if !(validModes.contains input.mode) then
    (fs, .error ("invalid mode: " ++ input.mode ++ ". Valid modes are: " ++
      String.intercalate ", " validModes))
  else
    match fs input.path with
    | none => (fs, .error "failed to read file")
    | some content =>
      let lines := splitOnNl content
      if input.mode = "append" then
        if input.new_str = [] then
          (fs, .error "new_str is required for append mode")
        else
          (writeFS fs input.path (joinNl (lines ++ [input.new_str])),
           .ok "Successfully edited file using append mode")
      else if input.mode = "prepend" then
        if input.new_str = [] then
          (fs, .error "new_str is required for prepend mode")
        else
          (writeFS fs input.path (joinNl (input.new_str :: lines)),
           .ok "Successfully edited file using prepend mode")
      else if input.mode = "replace" then
        if input.old_str = [] ∨ input.new_str = [] then
          (fs, .error "both old_str and new_str are required for replace mode")
        else if input.old_str = input.new_str then
          (fs, .error "old_str and new_str must be different")
        else
          let newContent := replaceAll input.old_str input.new_str content
          let occurrences := countOccs input.old_str content
          if occurrences = 0 then
            (fs, .error "old_str not found in file")
          else if occurrences > 1 then
            (fs, .error ("old_str found " ++ toString occurrences ++
              " times, expected exactly 1 occurrence for safety"))
          else
            (writeFS fs input.path newContent,
             .ok "Successfully replaced text in file")
      else if input.mode = "insert_after" ∨ input.mode = "insert_before" ∨
          input.mode = "delete_line" then
        if input.new_str = [] ∧ input.mode ≠ "delete_line" then
          (fs, .error ("new_str is required for " ++ input.mode ++ " mode"))
        else
          match resolveTarget input.mode input.old_str input.line_number lines with
          | .error e => (fs, .error e)
          | .ok t =>
            let newLines :=
              if input.mode = "insert_after" then
                lines.take (t + 1) ++ input.new_str :: lines.drop (t + 1)
              else if input.mode = "insert_before" then
                lines.take t ++ input.new_str :: lines.drop t
              else
                lines.take t ++ lines.drop (t + 1)
            (writeFS fs input.path (joinNl newLines),
             .ok ("Successfully edited file using " ++ input.mode ++ " mode"))
      else (fs, .error ("unsupported mode: " ++ input.mode))

/-- The edit engine as the spec describes it in §4.4: a pure function from
(current file content, instruction) to (new content together with the
success message, or an error).  This is `EditFile`'s content transformation
(the code between its `os.ReadFile` and its `os.WriteFile` calls) with the
file system stripped out; the unreachable `switch` default is kept. -/
def applyEdit (content : List Char) (input : EditFileInput) :
    Except String (List Char × String) :=
  let lines := splitOnNl content
  if input.mode = "append" then
    if input.new_str = [] then
      .error "new_str is required for append mode"
    else
      .ok (joinNl (lines ++ [input.new_str]),
        "Successfully edited file using append mode")
  else if input.mode = "prepend" then
    if input.new_str = [] then
      .error "new_str is required for prepend mode"
    else
      .ok (joinNl (input.new_str :: lines),
        "Successfully edited file using prepend mode")
  else if input.mode = "replace" then
    if input.old_str = [] ∨ input.new_str = [] then
      .error "both old_str and new_str are required for replace mode"
    else if input.old_str = input.new_str then
      .error "old_str and new_str must be different"
    else
      let newContent := replaceAll input.old_str input.new_str content
      let occurrences := countOccs input.old_str content
      if occurrences = 0 then
        .error "old_str not found in file"
      else if occurrences > 1 then
        .error ("old_str found " ++ toString occurrences ++
          " times, expected exactly 1 occurrence for safety")
      else
        .ok (newContent, "Successfully replaced text in file")
  else if input.mode = "insert_after" ∨ input.mode = "insert_before" ∨
      input.mode = "delete_line" then
    if input.new_str = [] ∧ input.mode ≠ "delete_line" then
      .error ("new_str is required for " ++ input.mode ++ " mode")
    else
      match resolveTarget input.mode input.old_str input.line_number lines with
      | .error e => .error e
      | .ok t =>
        let newLines :=
          if input.mode = "insert_after" then
            lines.take (t + 1) ++ input.new_str :: lines.drop (t + 1)
          else if input.mode = "insert_before" then
            lines.take t ++ input.new_str :: lines.drop t
          else
            lines.take t ++ lines.drop (t + 1)
        .ok (joinNl newLines,
          "Successfully edited file using " ++ input.mode ++ " mode")
  else .error ("unsupported mode: " ++ input.mode)

/-! ## Directory trees (for `ListFiles`) -/

/-- A named directory entry; children of a directory are kept in the order
`os.ReadDir` reports them (sorted by filename). -/
inductive Entry where
  | file (name : String)
  | dir (name : String) (children : List Entry)

/-- The name of an entry. -/
def entryName : Entry → String
  | .file n => n
  | .dir n _ => n

/-- The directory side of the external file system: maps a directory path
to its entries (`os.ReadDir` / the root of `filepath.Walk`). -/
def DirFS : Type := String → Option (List Entry)

/-- The `filepath.Walk` callback of `ListFiles`: walk entries depth-first
in order, producing relative paths (directories suffixed with `/`).  When
`maxDepth ≥ 0`, an entry whose relative path contains more than `maxDepth`
separators is skipped (`filepath.SkipDir` prunes a directory's subtree). -/
def walkEntries (maxDepth : Int) : String → Nat → List Entry → List String
  | _, _, [] => []
  | relBase, depth, e :: rest =>
    let rel := if relBase = "" then entryName e else relBase ++ "/" ++ entryName e
    (match e with
     | .file _ =>
       if maxDepth ≥ 0 ∧ (depth : Int) > maxDepth then [] else [rel]
     | .dir _ children =>
       if maxDepth ≥ 0 ∧ (depth : Int) > maxDepth then []
       else (rel ++ "/") :: walkEntries maxDepth rel (depth + 1) children)
    ++ walkEntries maxDepth relBase depth rest

/-- `json.Marshal` of a `[]string` built by `append` from a `nil` slice:
`nil` marshals as `null`, otherwise a JSON array.  (Escaping is modelled
for quote and backslash, the characters exercised here.) -/
def jsonQuote (s : String) : String :=
  "\"" ++ String.mk (s.toList.flatMap fun c =>
    if c = '"' then ['\\', '"'] else if c = '\\' then ['\\', '\\'] else [c]) ++
  "\""

/-- `json.Marshal` for the `files` slice of `ListFiles`. -/
def jsonMarshalStringList : List String → String
  | [] => "null"
  | xs => "[" ++ String.intercalate "," (xs.map jsonQuote) ++ "]"

/-! ## The tool handlers (`tools/files.go`) -/

/-- The state a tool handler can read and write: the file contents and the
directory structure of the working tree. -/
structure ToolState where
  files : FS
  dirs : DirFS

/-- The decoded `ReadFileInput` struct of the `tools` package. -/
structure ReadFileInput where
  path : String
  start_line : Option Int
  end_line : Option Int

/-- `json.Unmarshal` into `ReadFileInput`. -/
def decodeReadFileInput (j : Json) : Except String ReadFileInput :=
  match j with
  | .obj fields =>
    match getStrField fields "path" with
    | .error e => .error e
    | .ok path =>
      match getOptIntField fields "start_line" with
      | .error e => .error e
      | .ok start_line =>
        match getOptIntField fields "end_line" with
        | .error e => .error e
        | .ok end_line => .ok ⟨path, start_line, end_line⟩
  | _ => .error "json: cannot unmarshal value into ReadFileInput"

/-- `ReadFile` (`tools/files.go`): full content, or an optional 1-based
line range (`lines[startIdx:endIdx]` rejoined with newlines). -/
def ReadFile (st : ToolState) (input : Json) : ToolState × Except String String :=
  match decodeReadFileInput input with
  | .error e => (st, .error ("failed to parse input: " ++ e))
  | .ok inp =>
    if inp.path = "" then (st, .error "path is required")
    else
      match st.files inp.path with
      | none => (st, .error "failed to read file")
      | some content =>
        match inp.start_line, inp.end_line with
        | none, none => (st, .ok (String.mk content))
        | _, _ =>
          let lines := splitOnNl content
          let totalLines := lines.length
          let startCheck : Except String Int :=
            match inp.start_line with
            | none => .ok 1
            | some s => if s < 1 then .error "start_line must be >= 1" else .ok s
          let endCheck : Except String Int :=
            match inp.end_line with
            | none => .ok totalLines
            | some e => if e < 1 then .error "end_line must be >= 1" else .ok e
          match startCheck, endCheck with
          | .error e, _ => (st, .error e)
          | _, .error e => (st, .error e)
          | .ok startLine, .ok endLine =>
            if startLine > endLine then
              (st, .error "start_line cannot be greater than end_line")
            else if startLine > (totalLines : Int) then
              (st, .error ("start_line (" ++ toString startLine ++
                ") exceeds total lines (" ++ toString totalLines ++ ")"))
            else
              let startIdx := (startLine - 1).toNat
              let endIdx := min endLine.toNat totalLines
              let selectedLines := (lines.drop startIdx).take (endIdx - startIdx)
              (st, .ok (String.mk (joinNl selectedLines)))

/-- The decoded `ListFilesInput` struct. -/
structure ListFilesInput where
  path : String
  recursive : Bool
  max_depth : Option Int

/-- `json.Unmarshal` into `ListFilesInput`.  An absent `recursive` field
decodes to the Go zero value `false` (the schema description's
"Defaults to true." notwithstanding). -/
def decodeListFilesInput (j : Json) : Except String ListFilesInput :=
  match j with
  | .obj fields =>
    match getStrField fields "path" with
    | .error e => .error e
    | .ok path =>
      match getBoolField fields "recursive" with
      | .error e => .error e
      | .ok recursive =>
        match getOptIntField fields "max_depth" with
        | .error e => .error e
        | .ok max_depth => .ok ⟨path, recursive, max_depth⟩
  | _ => .error "json: cannot unmarshal value into ListFilesInput"

/-- `ListFiles` (`tools/files.go`).  The `recursive := true` /
`if !input.Recursive` assignment sequence is kept verbatim. -/
def ListFiles (st : ToolState) (input : Json) : ToolState × Except String String :=
  match decodeListFilesInput input with
  | .error e => (st, .error ("failed to parse input: " ++ e))
  | .ok inp =>
    let dir := if inp.path = "" then "." else inp.path
    let recursive := if !inp.recursive then false else true
    if !recursive then
      match st.dirs dir with
      | none => (st, .error "failed to read directory")
      | some entries =>
        let files := entries.map fun e =>
          match e with
          | .file n => n
          | .dir n _ => n ++ "/"
        (st, .ok (jsonMarshalStringList files))
    else
      let maxDepth := inp.max_depth.getD (-1)
      match st.dirs dir with
      | none => (st, .error "failed to walk directory")
      | some entries =>
        (st, .ok (jsonMarshalStringList (walkEntries maxDepth "" 0 entries)))

/-- `json.Unmarshal` into `EditFileInput` (strings kept as `List Char`). -/
def decodeEditFileInput (j : Json) : Except String EditFileInput :=
  match j with
  | .obj fields =>
    match getStrField fields "path" with
    | .error e => .error e
    | .ok path =>
      match getStrField fields "mode" with
      | .error e => .error e
      | .ok mode =>
        match getStrField fields "old_str" with
        | .error e => .error e
        | .ok old_str =>
          match getStrField fields "new_str" with
          | .error e => .error e
          | .ok new_str =>
            match getOptIntField fields "line_number" with
            | .error e => .error e
            | .ok line_number =>
              .ok ⟨path, mode, old_str.toList, new_str.toList, line_number⟩
  | _ => .error "json: cannot unmarshal value into EditFileInput"

/-- The `edit_file` handler: decode, then run `EditFile` on the files. -/
def editFileTool (st : ToolState) (input : Json) :
    ToolState × Except String String :=
  match decodeEditFileInput input with
  | .error e => (st, .error ("failed to parse input: " ++ e))
  | .ok inp =>
    let (fs, r) := EditFile st.files inp
    ({ st with files := fs }, r)

/-! ## Tool registry and dispatcher -/

/-- `ToolDefinition` (`tools/tools.go`); the input schema is reflected from
the input struct and plays no role in execution, so it is not modelled. -/
structure ToolDefinition where
  name : String
  description : String
  fn : ToolState → Json → ToolState × Except String String

/-- `ReadFileDefinition`. -/
def ReadFileDefinition : ToolDefinition :=
  ⟨"read_file",
   "Read the contents of a given relative file path. Use this when you want to see what's inside a file. Do not use this with directory names.",
   ReadFile⟩

/-- `ListFilesDefinition`. -/
def ListFilesDefinition : ToolDefinition :=
  ⟨"list_files",
   "List files and directories at a given path. If no path is provided, lists files in the current directory.",
   ListFiles⟩

/-- `EditFileDefinition`. -/
def EditFileDefinition : ToolDefinition :=
  ⟨"edit_file",
   "Make edits to an existing file using various modes",
   editFileTool⟩

/-- `GetAllTools` (`tools/tools.go`): the fixed registry. -/
def GetAllTools : List ToolDefinition :=
  [ReadFileDefinition, ListFilesDefinition, EditFileDefinition]

/-- `anthropic.NewToolResultBlock(id, text, isError)`. -/
structure ToolResult where
  id : String
  text : String
  is_error : Bool
deriving DecidableEq

/-- `Agent.ExecuteTool` (`agent/agent.go`): look the tool up by exact name,
run it, and fold any handler error into an error `ToolResult`; an unknown
name yields the error result "tool not found".  The function is total: no
failure escapes to the caller. -/
def executeTool (tools : List ToolDefinition) (st : ToolState)
    (id name : String) (input : Json) : ToolState × ToolResult :=
  match tools.find? (fun t => t.name == name) with
  | none => (st, ⟨id, "tool not found", true⟩)
  | some toolDef =>
    match toolDef.fn st input with
    | (st', .ok response) => (st', ⟨id, response, false⟩)
    | (st', .error e) => (st', ⟨id, e, true⟩)

/-! ## The conversation orchestrator (`tui/chat.go`, `model.Run`) -/

/-- A content block of a model response (`message.Content`). -/
inductive RespBlock where
  | text (s : String)
  | toolUse (id name : String) (input : Json)

/-- Does the block have a tool_use content type? -/
def RespBlock.isToolUse : RespBlock → Bool
  | .toolUse _ _ _ => true
  | _ => false

/-- The id of a `tool_use` block, if any. -/
def RespBlock.toolUseId : RespBlock → Option String
  | .toolUse id _ _ => some id
  | _ => none

/-- A content block of a conversation message
(`anthropic.ContentBlockParamUnion`). -/
inductive ParamBlock where
  | text (s : String)
  | toolUse (id name : String) (input : Json)
  | toolResult (id text : String) (is_error : Bool)

/-- One member of the `conversation` slice (`anthropic.MessageParam`). -/
structure MessageParam where
  role : String
  content : List ParamBlock

/-- A model response is its list of content blocks. -/
def Response : Type := List RespBlock

/-- `message.ToParam()`: the completed model turn as a conversation entry. -/
def toParam (m : Response) : MessageParam :=
  ⟨"assistant", m.map fun b =>
    match b with
    | .text s => .text s
    | .toolUse id name input => .toolUse id name input⟩

/-- `anthropic.NewUserMessage` of a single text block. -/
def newUserTextMessage (s : String) : MessageParam :=
  ⟨"user", [.text s]⟩

/-- `anthropic.NewUserMessage(toolResults...)`. -/
def newUserToolResults (rs : List ToolResult) : MessageParam :=
  ⟨"user", rs.map fun r => .toolResult r.id r.text r.is_error⟩

/-- The per-turn dispatch loop (`for _, content := range message.Content`):
execute each `tool_use` block in order, threading the tool state, and
collect one `ToolResult` per invocation in the same order. -/
def dispatchTools (tools : List ToolDefinition) (st : ToolState) :
    List RespBlock → ToolState × List ToolResult
  | [] => (st, [])
  | .text _ :: rest => dispatchTools tools st rest
  | .toolUse id name input :: rest =>
    let (st', r) := executeTool tools st id name input
    let (st'', rs) := dispatchTools tools st' rest
    (st'', r :: rs)

/-- The ids of the `tool_use` blocks of a model turn, in order. -/
def toolUseIds (m : Response) : List String :=
  m.filterMap RespBlock.toolUseId

/-- `hasToolCalls` for one completed model turn. -/
def hasToolCalls (m : Response) : Bool :=
  m.any RespBlock.isToolUse

/-- The `for hasToolCalls` goroutine loop of `model.Run` (`tui/chat.go`).
The remote model is replaced by a script: the list of responses successive
inference calls return.  Each iteration appends the model turn; if it
contained tool calls, the tool results are appended as a single user turn
and the loop continues, otherwise it stops.  `none` means the script ran
out while another inference was needed (the loop would still be running). -/
def runLoop (tools : List ToolDefinition) :
    List Response → ToolState → List MessageParam →
    ToolState × Option (List MessageParam)
  | [], st, _ => (st, none)
  | m :: rest, st, conversation =>
    let conversation' := conversation ++ [toParam m]
    let (st', toolResults) := dispatchTools tools st m
    if hasToolCalls m then
      runLoop tools rest st' (conversation' ++ [newUserToolResults toolResults])
    else (st', some conversation')

/-- One user submission (`model.Run`): append the user turn (unless the
input is empty) and run the inference/dispatch loop to completion. -/
def SubmitUserInput (tools : List ToolDefinition) (responses : List Response)
    (st : ToolState) (conversation : List MessageParam) (userInput : String) :
    ToolState × Option (List MessageParam) :=
  let conversation' :=
    if userInput ≠ "" then conversation ++ [newUserTextMessage userInput]
    else conversation
  runLoop tools responses st conversation'

/-! ## Streaming accumulation -/

/-- A streaming event of one model call (§3 of the spec). -/
inductive StreamEvent where
  | textDelta (s : List Char)
  | toolUseStart (id name : String)
  | inputDelta (fragment : String)
  | turnComplete

/-- Modelled from the spec: `RunInferenceWithStreaming` is called from
`tui/chat.go` but its definition is not part of the repository snapshot.
Per §4.3/§4.1, the dedicated streaming task accumulates every `TextDelta`
into the pending model turn's text block and forwards the same fragment to
the consumer channel in arrival order; the terminal event materializes the
final message.  State: fragments delivered so far, accumulated text. -/
def streamRun : List StreamEvent → List (List Char) → List Char →
    List (List Char) × List Char
  | [], delivered, acc => (delivered, acc)
  | .textDelta s :: rest, delivered, acc =>
    streamRun rest (delivered ++ [s]) (acc ++ s)
  | .toolUseStart _ _ :: rest, delivered, acc => streamRun rest delivered acc
  | .inputDelta _ :: rest, delivered, acc => streamRun rest delivered acc
  | .turnComplete :: _, delivered, acc => (delivered, acc)

/-- Modelled from the spec: run the streaming accumulator on one model
call's events, returning the delivered fragments and the text of the
materialized final message. -/
def RunInferenceWithStreaming (events : List StreamEvent) :
    List (List Char) × List Char :=
  streamRun events [] []

/-! ## The earlier `main.go` revision of `ReadFile` -/

/-- The outcome of calling a Go function that may panic. -/
inductive GoOutcome (α : Type) where
  | returned (val : α)
  | panicked (msg : String)
deriving DecidableEq

/-- The decoded `ReadFileInput` struct of `main.go` (path only). -/
structure MainReadFileInput where
  path : String

/-- `json.Unmarshal` into the `main.go` revision's `ReadFileInput`. -/
def decodeMainReadFileInput (j : Json) : Except String MainReadFileInput :=
  match j with
  | .obj fields =>
    match getStrField fields "path" with
    | .error e => .error e
    | .ok path => .ok ⟨path⟩
  | _ => .error "json: cannot unmarshal value into ReadFileInput"

/-- `ReadFile` as in `main.go` (the earlier revision kept in the repo): a
failed `json.Unmarshal` hits `panic(err)` instead of returning an error. -/
def ReadFileMain (fs : FS) (input : Json) : GoOutcome (Except String String) :=
  match decodeMainReadFileInput input with
  | .error e => .panicked e
  | .ok inp =>
    match fs inp.path with
    | none => .returned (.error "open: no such file or directory")
    | some content => .returned (.ok (String.mk content))

/-! ## Spec-side vocabulary -/

/-- The claim's reading of substring occurrence for `replace` mode: the
number of positions of the content at which `old_text` occurs (occurrences
may overlap). -/
def substringOccurrences (pat s : List Char) : Nat :=
  ((List.range (s.length + 1)).filter fun i => pat.isPrefixOf (s.drop i)).length

/-- The line-level splice of the three line-targeting modes, with `t` the
0-based target line: the new line goes immediately after/before line `t`
(or line `t` is removed), all other lines kept verbatim and in order. -/
def spliceLines (mode : String) (lines : List (List Char))
    (new : List Char) (t : Nat) : List (List Char) :=
  if mode = "insert_after" then lines.take (t + 1) ++ new :: lines.drop (t + 1)
  else if mode = "insert_before" then lines.take t ++ new :: lines.drop t
  else lines.take t ++ lines.drop (t + 1)

end CliAgent

/-! quick sanity checks of the Go semantics -/

example : CliAgent.countOccs ['a', 'a'] ['a', 'a', 'a'] = 1 := by decide

example :
    CliAgent.replaceAll ['a', 'a'] ['b'] ['a', 'a', 'a'] = ['b', 'a'] := by
  decide

example :
    CliAgent.splitOnNl ['a', '\n', 'b', '\n'] = [['a'], ['b'], []] := by
  decide

example : CliAgent.joinNl [['a'], ['b'], []] = ['a', '\n', 'b', '\n'] := by
  decide

example : CliAgent.containsSub ['b', 'c'] ['a', 'b', 'c'] = true := by decide

example :
    CliAgent.applyEdit ['a', '\n', 'b']
      ⟨"f", "append", [], ['c'], none⟩ =
    .ok (['a', '\n', 'b', '\n', 'c'],
      "Successfully edited file using append mode") := rfl

example :
    CliAgent.applyEdit ['a', '\n', 'b']
      ⟨"f", "prepend", [], ['c'], none⟩ =
    .ok (['c', '\n', 'a', '\n', 'b'],
      "Successfully edited file using prepend mode") := rfl

example :
    CliAgent.applyEdit ['x', '\n', 'y', '\n', 'z']
      ⟨"f", "delete_line", ['x'], [], none⟩ =
    .ok (['y', '\n', 'z'],
      "Successfully edited file using delete_line mode") := rfl

example :
    CliAgent.applyEdit ['f', 'o', 'o', '\n', 'f', 'o', 'o', '\n']
      ⟨"f", "replace", ['f', 'o', 'o'], ['b', 'a', 'r'], none⟩ =
    .error "old_str found 2 times, expected exactly 1 occurrence for safety" := rfl

example :
    CliAgent.applyEdit ['a', 'b', 'c']
      ⟨"f", "replace", ['b'], ['X'], none⟩ =
    .ok (['a', 'X', 'c'], "Successfully replaced text in file") := rfl

example :
    CliAgent.applyEdit ['a', '\n', 'b']
      ⟨"f", "insert_after", [], ['c'], some 1⟩ =
    .ok (['a', '\n', 'c', '\n', 'b'],
      "Successfully edited file using insert_after mode") := rfl

example :
    CliAgent.applyEdit ['a', '\n', 'b']
      ⟨"f", "insert_before", ['b'], ['c'], none⟩ =
    .ok (['a', '\n', 'c', '\n', 'b'],
      "Successfully edited file using insert_before mode") := rfl

example :
    CliAgent.applyEdit ['a', '\n', 'b']
      ⟨"f", "insert_after", [], ['c'], some 3⟩ =
    .error "line_number 3 is out of range (1-2)" := rfl

namespace CliAgent

/-! ## Lemmas about the Go string primitives -/

theorem countOccsAux_skip (pat : List Char) :
    ∀ (t : List Char) (k : Nat),
      countOccsAux pat t k = countOccsAux pat (t.drop k) 0 := by
  intro t
  induction t with
  | nil => intro k; simp [countOccsAux]
  | cons c rest ih =>
    intro k
    match k with
    | 0 => rfl
    | k + 1 => simpa only [countOccsAux, List.drop_succ_cons] using ih k

theorem replaceAllAux_skip (pat rep : List Char) :
    ∀ (t : List Char) (k : Nat),
      replaceAllAux pat rep t k = replaceAllAux pat rep (t.drop k) 0 := by
  intro t
  induction t with
  | nil => intro k; simp [replaceAllAux]
  | cons c rest ih =>
    intro k
    match k with
    | 0 => rfl
    | k + 1 => simpa only [replaceAllAux, List.drop_succ_cons] using ih k

theorem replaceAll_of_countOccs_zero (pat rep : List Char) :
    ∀ (s : List Char), countOccs pat s = 0 → replaceAll pat rep s = s := by
  intro s
  unfold countOccs replaceAll
  induction s with
  | nil => intro _; rfl
  | cons c rest ih =>
    intro h
    by_cases hm : (pat.isPrefixOf (c :: rest) && !pat.isEmpty) = true
    · simp only [countOccsAux, hm, if_true] at h
      omega
    · simp only [countOccsAux, hm, if_false, Bool.false_eq_true] at h
      simp only [replaceAllAux, hm, if_false, Bool.false_eq_true]
      rw [ih h]

theorem countOccs_one_decomp (pat rep : List Char) (hpat : pat ≠ []) :
    ∀ (s : List Char), countOccs pat s = 1 →
      ∃ pre post, s = pre ++ pat ++ post ∧ countOccs pat pre = 0 ∧
        countOccs pat post = 0 ∧ replaceAll pat rep s = pre ++ rep ++ post := by
  intro s
  induction s with
  | nil => intro h; simp [countOccs, countOccsAux] at h
  | cons c rest ih =>
    intro h
    by_cases hm : (pat.isPrefixOf (c :: rest) && !pat.isEmpty) = true
    · -- the leftmost match is at the head
      obtain ⟨p, pr, rfl⟩ : ∃ p pr, pat = p :: pr := by
        cases pat with
        | nil => exact absurd rfl hpat
        | cons p pr => exact ⟨p, pr, rfl⟩
      have hpf : (p :: pr) <+: (c :: rest) :=
        List.isPrefixOf_iff_prefix.mp ((Bool.and_eq_true _ _).mp hm).1
      obtain ⟨t, ht⟩ := hpf
      have hc : p = c := by
        have := congrArg (fun l => l.head?) ht
        simpa using this
      have hrest : pr ++ t = rest := by
        have := congrArg (fun l => l.tail) ht
        simpa using this
      have hdrop : rest.drop pr.length = t := by
        rw [← hrest]; exact List.drop_left pr t
      have hcount0 : countOccs (p :: pr) t = 0 := by
        have h' := h
        unfold countOccs at h'
        simp only [countOccsAux, hm, if_true] at h'
        have : countOccsAux (p :: pr) rest ((p :: pr).length - 1) = 0 := by omega
        rw [countOccsAux_skip] at this
        simpa [hdrop] using this
      refine ⟨[], t, ?_, ?_, hcount0, ?_⟩
      · simp [← ht]
      · rfl
      · unfold replaceAll
        simp only [replaceAllAux, hm, if_true]
        rw [replaceAllAux_skip]
        simp only [List.length_cons, Nat.add_sub_cancel, hdrop]
        have := replaceAll_of_countOccs_zero (p :: pr) rep t hcount0
        unfold replaceAll at this
        rw [this]
        simp
    · -- no match at the head: recurse on the tail
      have h' : countOccs pat rest = 1 := by
        have h'' := h
        unfold countOccs at h'' ⊢
        simpa only [countOccsAux, hm, if_false, Bool.false_eq_true] using h''
      obtain ⟨pre, post, hs, hpre0, hpost0, hrepl⟩ := ih h'
      have hnotpf : ¬ ((pat.isPrefixOf (c :: pre) && !pat.isEmpty) = true) := by
        intro hcp
        apply hm
        have h1 : pat <+: (c :: pre) :=
          List.isPrefixOf_iff_prefix.mp ((Bool.and_eq_true _ _).mp hcp).1
      
        have h2 : (c :: pre) <+: (c :: rest) := by
          rw [hs]
          exact ⟨pat ++ post, by simp⟩
        refine (Bool.and_eq_true _ _).mpr ⟨?_, ((Bool.and_eq_true _ _).mp hcp).2⟩
        exact List.isPrefixOf_iff_prefix.mpr (h1.trans h2)
      refine ⟨c :: pre, post, ?_, ?_, hpost0, ?_⟩
      · rw [hs]; rfl
      · unfold countOccs
        simp only [countOccsAux, hnotpf, if_false, Bool.false_eq_true]
        exact hpre0
      · unfold replaceAll
        simp only [replaceAllAux, hm, if_false, Bool.false_eq_true]
        unfold replaceAll at hrepl
        rw [hrepl]
        rfl

/-! ## Relating `EditFile` to the pure engine `applyEdit` -/

theorem valid_mode_cases {mode : String}
    (hmode : validModes.contains mode = true) :
    mode = "replace" ∨ mode = "insert_after" ∨ mode = "insert_before" ∨
      mode = "append" ∨ mode = "prepend" ∨ mode = "delete_line" := by
  simpa [validModes, List.contains_eq_any_beq] using hmode

theorem mode_ne_empty_of_valid {mode : String}
    (hmode : validModes.contains mode = true) : mode ≠ "" := by
  rcases valid_mode_cases hmode with rfl | rfl | rfl | rfl | rfl | rfl <;>
    decide

theorem editFile_decomposes (fs : FS) (input : EditFileInput)
    (content : List Char)
    (hpath : input.path ≠ "") (hmode : validModes.contains input.mode = true)
    (hfs : fs input.path = some content) :
    EditFile fs input =
      match applyEdit content input with
      | .error e => (fs, .error e)
      | .ok (c, msg) => (writeFS fs input.path c, .ok msg) := by
  have hmode' : input.mode ≠ "" := mode_ne_empty_of_valid hmode
  have h := valid_mode_cases hmode
  rcases input with ⟨path, mode, old, new, ln⟩
  simp only at hpath hmode hmode' h
  rcases h with rfl | rfl | rfl | rfl | rfl | rfl
  · -- replace
    by_cases ho1 : old = []
    · simp [EditFile, applyEdit, validModes, hfs, hpath, hmode', ho1]
    · by_cases ho2 : new = []
      · simp [EditFile, applyEdit, validModes, hfs, hpath, hmode', ho1, ho2]
      · by_cases he : old = new
        · simp [EditFile, applyEdit, validModes, hfs, hpath, hmode', ho1,
            ho2, he]
        · by_cases hz : countOccs old content = 0
          · simp [EditFile, applyEdit, validModes, hfs, hpath, hmode', ho1,
              ho2, he, hz]
          · by_cases hg : countOccs old content > 1 <;>
              simp [EditFile, applyEdit, validModes, hfs, hpath, hmode',
                ho1, ho2, he, hz, hg]
  · -- insert_after
    by_cases hn : new = []
    · simp [EditFile, applyEdit, validModes, hfs, hpath, hmode', hn]
    · rcases hr : resolveTarget "insert_after" old ln (splitOnNl content)
        with e | t <;>
        simp [EditFile, applyEdit, validModes, hfs, hpath, hmode', hn, hr]
  · -- insert_before
    by_cases hn : new = []
    · simp [EditFile, applyEdit, validModes, hfs, hpath, hmode', hn]
    · rcases hr : resolveTarget "insert_before" old ln (splitOnNl content)
        with e | t <;>
        simp [EditFile, applyEdit, validModes, hfs, hpath, hmode', hn, hr]
  · -- append
    by_cases hn : new = [] <;>
      simp [EditFile, applyEdit, validModes, hfs, hpath, hmode', hn]
  · -- prepend
    by_cases hn : new = [] <;>
      simp [EditFile, applyEdit, validModes, hfs, hpath, hmode', hn]
  · -- delete_line
    rcases hr : resolveTarget "delete_line" old ln (splitOnNl content)
      with e | t <;>
      simp [EditFile, applyEdit, validModes, hfs, hpath, hmode', hr]

/-! ## The line-search loop -/

theorem matchLinesAux_nil_of_no_match (old : List Char) :
    ∀ (lines : List (List Char)) (start : Nat),
      (∀ j, j < lines.length → containsSub old (lines.getD j []) = false) →
      matchLinesAux old lines start = [] := by
  intro lines
  induction lines with
  | nil => intro start _; rfl
  | cons l rest ih =>
    intro start hno
    have h0 : containsSub old l = false := by simpa using hno 0 (by simp)
    simp only [matchLinesAux, h0, Bool.false_eq_true, if_false]
    refine ih (start + 1) fun j hj => ?_
    simpa using hno (j + 1) (by simp; omega)

theorem matchLinesAux_singleton (old : List Char) :
    ∀ (lines : List (List Char)) (start i : Nat),
      i < lines.length →
      containsSub old (lines.getD i []) = true →
      (∀ j, j < lines.length → containsSub old (lines.getD j []) = true →
        j = i) →
      matchLinesAux old lines start = [start + i] := by
  intro lines
  induction lines with
  | nil => intro start i hi; simp at hi
  | cons l rest ih =>
    intro start i hi hci huniq
    by_cases hl : containsSub old l = true
    · have hi0 : 0 = i := huniq 0 (by simp) (by simpa using hl)
      have hno : ∀ j, j < rest.length →
          containsSub old (rest.getD j []) = false := by
        intro j hj
        cases hc : containsSub old (rest.getD j []) with
        | false => rfl
        | true =>
          have := huniq (j + 1) (by simp; omega) (by simpa using hc)
          omega
      simp only [matchLinesAux, hl, if_true]
      rw [matchLinesAux_nil_of_no_match old rest (start + 1) hno, ← hi0]
      rfl
    · have hne : i ≠ 0 := by
        intro h0
        subst h0
        simp only [List.getD_cons_zero] at hci
        exact hl hci
      obtain ⟨i', rfl⟩ : ∃ i', i = i' + 1 := ⟨i - 1, by omega⟩
      have hci' : containsSub old (rest.getD i' []) = true := by
        simpa using hci
      have huniq' : ∀ j, j < rest.length →
          containsSub old (rest.getD j []) = true → j = i' := by
        intro j hj hcj
        have := huniq (j + 1) (by simp; omega) (by simpa using hcj)
        omega
      have hi' : i' < rest.length := by
        simp only [List.length_cons] at hi
        omega
      simp only [matchLinesAux, hl, Bool.false_eq_true, if_false]
      rw [ih (start + 1) i' hi' hci' huniq']
      congr 1
      omega

theorem matchLinesAux_length_pos (old : List Char) :
    ∀ (lines : List (List Char)) (start i : Nat), i < lines.length →
      containsSub old (lines.getD i []) = true →
      1 ≤ (matchLinesAux old lines start).length := by
  intro lines
  induction lines with
  | nil => intro start i hi; simp at hi
  | cons l rest ih =>
    intro start i hi hci
    by_cases hl : containsSub old l = true
    · simp [matchLinesAux, hl]
    · have hne : i ≠ 0 := by
        intro h0
        subst h0
        simp only [List.getD_cons_zero] at hci
        exact hl hci
      obtain ⟨i', rfl⟩ : ∃ i', i = i' + 1 := ⟨i - 1, by omega⟩
      simp only [matchLinesAux, hl, Bool.false_eq_true, if_false]
      exact ih (start + 1) i' (by simp at hi; omega) (by simpa using hci)

theorem matchLinesAux_length_two_le (old : List Char) :
    ∀ (lines : List (List Char)) (start i j : Nat), i < j →
      j < lines.length →
      containsSub old (lines.getD i []) = true →
      containsSub old (lines.getD j []) = true →
      2 ≤ (matchLinesAux old lines start).length := by
  intro lines
  induction lines with
  | nil => intro start i j _ hj; simp at hj
  | cons l rest ih =>
    intro start i j hij hj hci hcj
    obtain ⟨j', rfl⟩ : ∃ j', j = j' + 1 := ⟨j - 1, by omega⟩
    have hj' : j' < rest.length := by simp at hj; omega
    have hcj' : containsSub old (rest.getD j' []) = true := by simpa using hcj
    by_cases hl : containsSub old l = true
    · simp only [matchLinesAux, hl, if_true, List.length_cons]
      have := matchLinesAux_length_pos old rest (start + 1) j' hj' hcj'
      omega
    · have hne : i ≠ 0 := by
        intro h0
        subst h0
        simp only [List.getD_cons_zero] at hci
        exact hl hci
      obtain ⟨i', rfl⟩ : ∃ i', i = i' + 1 := ⟨i - 1, by omega⟩
      simp only [matchLinesAux, hl, Bool.false_eq_true, if_false]
      exact ih (start + 1) i' j' (by omega) hj' (by simpa using hci) hcj'

/-! ## Target resolution -/

theorem resolveTarget_lineNumber (mode : String) (old : List Char)
    (lines : List (List Char)) (n : Int)
    (h1 : 1 ≤ n) (h2 : n ≤ (lines.length : Int)) :
    resolveTarget mode old (some n) lines = .ok (n - 1).toNat := by
  have : ¬ (n < 1 ∨ n > (lines.length : Int)) := by omega
  simp [resolveTarget, this]

theorem resolveTarget_lineNumber_oob (mode : String) (old : List Char)
    (lines : List (List Char)) (n : Int)
    (h : n < 1 ∨ n > (lines.length : Int)) :
    resolveTarget mode old (some n) lines =
      .error ("line_number " ++ toString n ++ " is out of range (1-" ++
        toString lines.length ++ ")") := by
  simp [resolveTarget, h]

theorem resolveTarget_unique_match (mode : String) (old : List Char)
    (lines : List (List Char)) (i : Nat) (hold : old ≠ [])
    (hi : i < lines.length)
    (hci : containsSub old (lines.getD i []) = true)
    (huniq : ∀ j, j < lines.length →
      containsSub old (lines.getD j []) = true → j = i) :
    resolveTarget mode old none lines = .ok i := by
  have hml : matchLinesAux old lines 0 = [i] := by
    simpa using matchLinesAux_singleton old lines 0 i hi hci huniq
  simp [resolveTarget, hold, hml]

theorem resolveTarget_no_match (mode : String) (old : List Char)
    (lines : List (List Char)) (hold : old ≠ [])
    (hno : ∀ j, j < lines.length →
      containsSub old (lines.getD j []) = false) :
    resolveTarget mode old none lines = .error "old_str not found in file" := by
  have hml : matchLinesAux old lines 0 = [] :=
    matchLinesAux_nil_of_no_match old lines 0 hno
  simp [resolveTarget, hold, hml]

theorem resolveTarget_multi_match (mode : String) (old : List Char)
    (lines : List (List Char)) (i j : Nat) (hold : old ≠ [])
    (hij : i < j) (hj : j < lines.length)
    (hci : containsSub old (lines.getD i []) = true)
    (hcj : containsSub old (lines.getD j []) = true) :
    resolveTarget mode old none lines =
      .error ("old_str found in " ++
        toString (matchLinesAux old lines 0).length ++
        " lines, expected exactly 1 for safety") := by
  have h2 : 2 ≤ (matchLinesAux old lines 0).length :=
    matchLinesAux_length_two_le old lines 0 i j hij hj hci hcj
  have h0 : ¬ ((matchLinesAux old lines 0).length = 0) := by omega
  have h1 : (matchLinesAux old lines 0).length > 1 := by omega
  simp [resolveTarget, hold, h0, h1]

/-! ## The dispatcher and the orchestrator loop -/

theorem executeTool_id (tools : List ToolDefinition) (st : ToolState)
    (id name : String) (input : Json) :
    (executeTool tools st id name input).2.id = id := by
  unfold executeTool
  rcases h : tools.find? (fun t => t.name == name) with _ | toolDef
  · simp [h]
  · rcases hf : toolDef.fn st input with ⟨st', r⟩
    cases r <;> simp [h, hf]

theorem dispatchTools_no_toolUse (tools : List ToolDefinition) :
    ∀ (m : List RespBlock) (st : ToolState), hasToolCalls m = false →
      dispatchTools tools st m = (st, []) := by
  intro m
  induction m with
  | nil => intro st _; rfl
  | cons b rest ih =>
    intro st h
    cases b with
    | text s =>
      have h' : hasToolCalls rest = false := by
        simpa [hasToolCalls, RespBlock.isToolUse] using h
      simp [dispatchTools, ih st h']
    | toolUse id name input =>
      simp [hasToolCalls, RespBlock.isToolUse] at h

theorem dispatchTools_ids (tools : List ToolDefinition) :
    ∀ (m : List RespBlock) (st : ToolState),
      ((dispatchTools tools st m).2).map ToolResult.id = toolUseIds m := by
  intro m
  induction m with
  | nil => intro st; rfl
  | cons b rest ih =>
    intro st
    cases b with
    | text s =>
      simpa [dispatchTools, toolUseIds, RespBlock.toolUseId] using ih st
    | toolUse id name input =>
      rcases he : executeTool tools st id name input with ⟨st', r⟩
      rcases hd : dispatchTools tools st' rest with ⟨st'', rs⟩
      have hid : r.id = id := by
        have := executeTool_id tools st id name input
        rw [he] at this
        exact this
      have := ih st'
      rw [hd] at this
      simp [dispatchTools, he, hd, toolUseIds, RespBlock.toolUseId, hid]
      simpa [toolUseIds] using this

theorem runLoop_step_no_tools (tools : List ToolDefinition) (m : Response)
    (rest : List Response) (st : ToolState)
    (conversation : List MessageParam) (h : hasToolCalls m = false) :
    runLoop tools (m :: rest) st conversation =
      (st, some (conversation ++ [toParam m])) := by
  simp [runLoop, h, dispatchTools_no_toolUse tools m st h]

theorem runLoop_step_tools (tools : List ToolDefinition) (m : Response)
    (rest : List Response) (st : ToolState)
    (conversation : List MessageParam) (h : hasToolCalls m = true) :
    runLoop tools (m :: rest) st conversation =
      runLoop tools rest (dispatchTools tools st m).1
        (conversation ++
          [toParam m, newUserToolResults (dispatchTools tools st m).2]) := by
  rcases hd : dispatchTools tools st m with ⟨st', rs⟩
  simp [runLoop, h, hd]

theorem runLoop_terminates (tools : List ToolDefinition) :
    ∀ (pre : List Response) (fin : Response) (rest : List Response)
      (st : ToolState) (conversation : List MessageParam),
      (∀ m ∈ pre, hasToolCalls m = true) → hasToolCalls fin = false →
      ∃ st' conversation',
        runLoop tools (pre ++ fin :: rest) st conversation =
          (st', some conversation') ∧
        conversation'.length = conversation.length + 1 + 2 * pre.length := by
  intro pre
  induction pre with
  | nil =>
    intro fin rest st conversation _ hfin
    refine ⟨st, conversation ++ [toParam fin], ?_, by simp⟩
    simpa using runLoop_step_no_tools tools fin rest st conversation hfin
  | cons m pre' ih =>
    intro fin rest st conversation hpre hfin
    rw [List.cons_append,
      runLoop_step_tools tools m _ st conversation (hpre m (by simp))]
    obtain ⟨st', conv', heq, hlen⟩ :=
      ih fin rest (dispatchTools tools st m).1
        (conversation ++ [toParam m,
          newUserToolResults (dispatchTools tools st m).2])
        (fun x hx => hpre x (by simp [hx])) hfin
    refine ⟨st', conv', heq, ?_⟩
    simp only [List.length_append, List.length_cons, List.length_nil] at hlen
    simp only [List.length_cons]
    omega

/-! ## The streaming accumulator -/

theorem streamRun_concat :
    ∀ (events : List StreamEvent) (delivered : List (List Char))
      (acc : List Char), delivered.flatten = acc →
      ((streamRun events delivered acc).1).flatten =
        (streamRun events delivered acc).2 := by
  intro events
  induction events with
  | nil => intro d a h; simpa [streamRun] using h
  | cons e rest ih =>
    intro d a h
    cases e with
    | textDelta s =>
      have : (d ++ [s]).flatten = a ++ s := by simp [h]
      simpa [streamRun] using ih (d ++ [s]) (a ++ s) this
    | toolUseStart id name => simpa [streamRun] using ih d a h
    | inputDelta fragment => simpa [streamRun] using ih d a h
    | turnComplete => simpa [streamRun] using h

/-! ## Reductions of `applyEdit` per mode -/

theorem applyEdit_replace (content old new : List Char) (path : String)
    (ln : Option Int) (hold : old ≠ []) (hnew : new ≠ []) (hne : old ≠ new) :
    applyEdit content ⟨path, "replace", old, new, ln⟩ =
      if countOccs old content = 0 then .error "old_str not found in file"
      else if countOccs old content > 1 then
        .error ("old_str found " ++ toString (countOccs old content) ++
          " times, expected exactly 1 occurrence for safety")
      else .ok (replaceAll old new content,
        "Successfully replaced text in file") := by
  simp [applyEdit, hold, hnew, hne]

theorem applyEdit_line_mode (content old new : List Char) (path m : String)
    (ln : Option Int)
    (hm3 : m = "insert_after" ∨ m = "insert_before" ∨ m = "delete_line")
    (hnew : new ≠ [] ∨ m = "delete_line") :
    applyEdit content ⟨path, m, old, new, ln⟩ =
      match resolveTarget m old ln (splitOnNl content) with
      | .error e => .error e
      | .ok t => .ok (joinNl (spliceLines m (splitOnNl content) new t),
          "Successfully edited file using " ++ m ++ " mode") := by
  rcases hm3 with rfl | rfl | rfl
  · rcases hnew with hnew | h
    · rcases hr : resolveTarget "insert_after" old ln (splitOnNl content)
        with e | t <;> simp [applyEdit, spliceLines, hnew, hr]
    · exact absurd h (by decide)
  · rcases hnew with hnew | h
    · rcases hr : resolveTarget "insert_before" old ln (splitOnNl content)
        with e | t <;> simp [applyEdit, spliceLines, hnew, hr]
    · exact absurd h (by decide)
  · rcases hr : resolveTarget "delete_line" old ln (splitOnNl content)
      with e | t <;> simp [applyEdit, spliceLines, hr]

/-! ## The claims -/

/-- C1, counterexample to the claim as stated.  In the content `aaa` the
string `aa` occurs at two positions (the occurrences overlap), so by the
claim a replace-mode edit with `old_text = "aa"` must fail and leave the
file unchanged.  The code counts occurrences with Go's non-overlapping
`strings.Count`, which reports 1, so `EditFile` succeeds and rewrites the
file to `ba`. -/
theorem C1_counterexample :
    substringOccurrences ['a', 'a'] ['a', 'a', 'a'] = 2 ∧
    (EditFile (fun p => if p = "f.txt" then some ['a', 'a', 'a'] else none)
      ⟨"f.txt", "replace", ['a', 'a'], ['b'], none⟩).2 =
      .ok "Successfully replaced text in file" ∧
    (EditFile (fun p => if p = "f.txt" then some ['a', 'a', 'a'] else none)
      ⟨"f.txt", "replace", ['a', 'a'], ['b'], none⟩).1 "f.txt" =
      some ['b', 'a'] :=
  ⟨by decide, rfl, rfl⟩

/-- C1 (amended): for a replace-mode edit with non-empty, differing
`old_text`/`new_text` on an existing file, occurrences are counted as Go's
`strings.Count` does — non-overlapping, leftmost first.  Exactly one such
occurrence: the edit succeeds and the file is rewritten with that (leftmost)
occurrence substituted by `new_text`.  Zero occurrences, or two or more
such occurrences: the edit returns an error and the file system is
unchanged. -/
theorem C1_replace_unique_occurrence (fs : FS) (path : String)
    (content old new : List Char)
    (hpath : path ≠ "") (hfs : fs path = some content)
    (hold : old ≠ []) (hnew : new ≠ []) (hne : old ≠ new) :
    (countOccs old content = 1 →
      ∃ pre post, content = pre ++ old ++ post ∧
        countOccs old pre = 0 ∧ countOccs old post = 0 ∧
        EditFile fs ⟨path, "replace", old, new, none⟩ =
          (writeFS fs path (pre ++ new ++ post),
           .ok "Successfully replaced text in file")) ∧
    (countOccs old content = 0 →
      EditFile fs ⟨path, "replace", old, new, none⟩ =
        (fs, .error "old_str not found in file")) ∧
    (countOccs old content > 1 →
      EditFile fs ⟨path, "replace", old, new, none⟩ =
        (fs, .error ("old_str found " ++ toString (countOccs old content) ++
          " times, expected exactly 1 occurrence for safety"))) := by
  have hmv : validModes.contains "replace" = true := by decide
  have hdec := editFile_decomposes fs ⟨path, "replace", old, new, none⟩
    content hpath hmv hfs
  have happ := applyEdit_replace content old new path none hold hnew hne
  refine ⟨?_, ?_, ?_⟩
  · intro h1
    obtain ⟨pre, post, hs, hpre0, hpost0, hrepl⟩ :=
      countOccs_one_decomp old new hold content h1
    refine ⟨pre, post, hs, hpre0, hpost0, ?_⟩
    have hz : ¬ (countOccs old content = 0) := by omega
    have hg : ¬ (countOccs old content > 1) := by omega
    rw [hdec, happ]
    simp [hz, hg, hrepl]
  · intro h0
    rw [hdec, happ]
    simp [h0]
  · intro hg
    have hz : ¬ (countOccs old content = 0) := by omega
    rw [hdec, happ]
    simp [hz, hg]

/-- C1 witness: on the file `xy`, replacing the unique occurrence of `x`
by `z` succeeds and writes `zy`. -/
theorem C1_replace_unique_occurrence_witness :
    ∃ pre post, (['x', 'y'] : List Char) = pre ++ ['x'] ++ post ∧
      countOccs ['x'] pre = 0 ∧ countOccs ['x'] post = 0 ∧
      EditFile (fun p => if p = "f.txt" then some ['x', 'y'] else none)
        ⟨"f.txt", "replace", ['x'], ['z'], none⟩ =
        (writeFS (fun p => if p = "f.txt" then some ['x', 'y'] else none)
          "f.txt" (pre ++ ['z'] ++ post),
         .ok "Successfully replaced text in file") :=
  (C1_replace_unique_occurrence
    (fun p => if p = "f.txt" then some ['x', 'y'] else none)
    "f.txt" ['x', 'y'] ['x'] ['z'] (by decide) rfl (by decide) (by decide)
    (by decide)).1 (by decide)

/-- C2: for the three line-targeting modes on an existing file: an
explicit `line_number` in `[1, lineCount]` selects that line directly and
the result is the splice at that line (all other lines verbatim, in
order); an out-of-range `line_number` is an error with the file unchanged;
with no `line_number`, a supplied `old_text` matching exactly one line
splices at that line; zero matching lines or several matching lines are
errors with the file unchanged; supplying neither `line_number` nor
`old_text` is an error. -/
theorem C2_line_target_modes (fs : FS) (path m : String)
    (content old new : List Char)
    (hm3 : m = "insert_after" ∨ m = "insert_before" ∨ m = "delete_line")
    (hpath : path ≠ "") (hfs : fs path = some content)
    (hnew : new ≠ [] ∨ m = "delete_line") :
    (∀ n : Int, 1 ≤ n → n ≤ ((splitOnNl content).length : Int) →
      EditFile fs ⟨path, m, old, new, some n⟩ =
        (writeFS fs path
          (joinNl (spliceLines m (splitOnNl content) new (n - 1).toNat)),
         .ok ("Successfully edited file using " ++ m ++ " mode"))) ∧
    (∀ n : Int, (n < 1 ∨ n > ((splitOnNl content).length : Int)) →
      EditFile fs ⟨path, m, old, new, some n⟩ =
        (fs, .error ("line_number " ++ toString n ++
          " is out of range (1-" ++
          toString (splitOnNl content).length ++ ")"))) ∧
    (∀ i : Nat, old ≠ [] → i < (splitOnNl content).length →
      containsSub old ((splitOnNl content).getD i []) = true →
      (∀ j, j < (splitOnNl content).length →
        containsSub old ((splitOnNl content).getD j []) = true → j = i) →
      EditFile fs ⟨path, m, old, new, none⟩ =
        (writeFS fs path (joinNl (spliceLines m (splitOnNl content) new i)),
         .ok ("Successfully edited file using " ++ m ++ " mode"))) ∧
    (old ≠ [] → (∀ j, j < (splitOnNl content).length →
        containsSub old ((splitOnNl content).getD j []) = false) →
      EditFile fs ⟨path, m, old, new, none⟩ =
        (fs, .error "old_str not found in file")) ∧
    (∀ i j : Nat, old ≠ [] → i < j → j < (splitOnNl content).length →
      containsSub old ((splitOnNl content).getD i []) = true →
      containsSub old ((splitOnNl content).getD j []) = true →
      ∃ msg, EditFile fs ⟨path, m, old, new, none⟩ = (fs, .error msg)) ∧
    (old = [] →
      EditFile fs ⟨path, m, old, new, none⟩ =
        (fs, .error ("either old_str or line_number is required for " ++
          m ++ " mode"))) := by
  have hmv : validModes.contains m = true := by
    rcases hm3 with rfl | rfl | rfl <;> decide
  have hgo : ∀ ln, EditFile fs ⟨path, m, old, new, ln⟩ =
      match resolveTarget m old ln (splitOnNl content) with
      | .error e => (fs, .error e)
      | .ok t =>
        (writeFS fs path (joinNl (spliceLines m (splitOnNl content) new t)),
         .ok ("Successfully edited file using " ++ m ++ " mode")) := by
    intro ln
    rw [editFile_decomposes fs ⟨path, m, old, new, ln⟩ content hpath hmv hfs,
      applyEdit_line_mode content old new path m ln hm3 hnew]
    rcases hr : resolveTarget m old ln (splitOnNl content) with e | t <;>
      simp [hr]
  refine ⟨?_, ?_, ?_, ?_, ?_, ?_⟩
  · intro n h1 h2
    rw [hgo (some n),
      resolveTarget_lineNumber m old (splitOnNl content) n h1 h2]
  · intro n h
    rw [hgo (some n),
      resolveTarget_lineNumber_oob m old (splitOnNl content) n h]
  · intro i hold hi hci huniq
    rw [hgo none,
      resolveTarget_unique_match m old (splitOnNl content) i hold hi hci
        huniq]
  · intro hold hno
    rw [hgo none, resolveTarget_no_match m old (splitOnNl content) hold hno]
  · intro i j hold hij hj hci hcj
    exact ⟨_, by
      rw [hgo none,
        resolveTarget_multi_match m old (splitOnNl content) i j hold hij hj
          hci hcj]⟩
  · intro hold
    subst hold
    rw [hgo none]
    simp [resolveTarget]

/-- C2 witness: on the file `a\nb`, inserting `c` after the unique line
containing `b` splices the new line at index 1. -/
theorem C2_line_target_modes_witness :
    EditFile (fun p => if p = "f" then some ['a', '\n', 'b'] else none)
      ⟨"f", "insert_after", ['b'], ['c'], none⟩ =
      (writeFS (fun p => if p = "f" then some ['a', '\n', 'b'] else none)
        "f" (joinNl (spliceLines "insert_after"
          (splitOnNl ['a', '\n', 'b']) ['c'] 1)),
       .ok ("Successfully edited file using " ++ "insert_after" ++
         " mode")) :=
  ((C2_line_target_modes
      (fun p => if p = "f" then some ['a', '\n', 'b'] else none)
      "f" "insert_after" ['a', '\n', 'b'] ['b'] ['c']
      (Or.inl rfl) (by decide) rfl (Or.inl (by decide))).2.2.1)
    1 (by decide) (by decide) (by decide) (by decide)

/-- C3: for the three line-targeting modes, an instruction that targets
line `i` by the explicit line number `i + 1` and an instruction that
targets the same line by a uniquely matching `old_text` produce identical
results (identical new file system and identical result message). -/
theorem C3_line_number_vs_substring (fs : FS) (path m : String)
    (content old new : List Char) (i : Nat)
    (hm3 : m = "insert_after" ∨ m = "insert_before" ∨ m = "delete_line")
    (hpath : path ≠ "") (hfs : fs path = some content)
    (hold : old ≠ [])
    (hi : i < (splitOnNl content).length)
    (hci : containsSub old ((splitOnNl content).getD i []) = true)
    (huniq : ∀ j, j < (splitOnNl content).length →
      containsSub old ((splitOnNl content).getD j []) = true → j = i) :
    EditFile fs ⟨path, m, [], new, some ((i : Int) + 1)⟩ =
      EditFile fs ⟨path, m, old, new, none⟩ := by
  have hmv : validModes.contains m = true := by
    rcases hm3 with rfl | rfl | rfl <;> decide
  by_cases hnew : new ≠ [] ∨ m = "delete_line"
  · have h1 : (1 : Int) ≤ (i : Int) + 1 := by omega
    have h2 : ((i : Int) + 1) ≤ ((splitOnNl content).length : Int) := by
      omega
    rw [editFile_decomposes fs ⟨path, m, [], new, some ((i : Int) + 1)⟩
        content hpath hmv hfs,
      editFile_decomposes fs ⟨path, m, old, new, none⟩ content hpath hmv hfs,
      applyEdit_line_mode content [] new path m (some ((i : Int) + 1)) hm3
        hnew,
      applyEdit_line_mode content old new path m none hm3 hnew,
      resolveTarget_lineNumber m [] (splitOnNl content) ((i : Int) + 1) h1
        h2,
      resolveTarget_unique_match m old (splitOnNl content) i hold hi hci
        huniq]
    have ht : (((i : Int) + 1) - 1).toNat = i := by omega
    rw [ht]
  · have hn : new = [] := by
      by_contra hc
      exact hnew (Or.inl hc)
    have hm : m ≠ "delete_line" := by
      intro hc
      exact hnew (Or.inr hc)
    have happ : ∀ (old' : List Char) (ln : Option Int),
        applyEdit content ⟨path, m, old', new, ln⟩ =
          .error ("new_str is required for " ++ m ++ " mode") := by
      intro old' ln
      rcases hm3 with rfl | rfl | rfl
      · simp [applyEdit, hn]
      · simp [applyEdit, hn]
      · exact absurd rfl hm
    rw [editFile_decomposes fs ⟨path, m, [], new, some ((i : Int) + 1)⟩
        content hpath hmv hfs,
      editFile_decomposes fs ⟨path, m, old, new, none⟩ content hpath hmv
        hfs,
      happ, happ]

/-- C3 witness: on the file `a\nb`, inserting `c` after line number 2 and
inserting `c` after the unique line containing `b` give the same result. -/
theorem C3_line_number_vs_substring_witness :
    EditFile (fun p => if p = "f" then some ['a', '\n', 'b'] else none)
      ⟨"f", "insert_after", [], ['c'], some ((1 : Int) + 1)⟩ =
      EditFile (fun p => if p = "f" then some ['a', '\n', 'b'] else none)
        ⟨"f", "insert_after", ['b'], ['c'], none⟩ :=
  C3_line_number_vs_substring
    (fun p => if p = "f" then some ['a', '\n', 'b'] else none)
    "f" "insert_after" ['a', '\n', 'b'] ['b'] ['c'] 1
    (Or.inl rfl) (by decide) rfl (by decide) (by decide) (by decide)
    (by decide)

/-- C4: for a user submission with a finite response script in which every
response before the final one contains tool calls and the final one
contains none, the orchestrator loop terminates with a completed
conversation whose length grew by exactly `2 + 2 * k` where `k` is the
number of tool round-trips: the user turn, one model turn per inference,
and one tool-result user turn per dispatch phase. -/
theorem C4_orchestrator_terminates (tools : List ToolDefinition)
    (pre rest : List Response) (fin : Response) (st : ToolState)
    (conversation : List MessageParam) (userInput : String)
    (hpre : ∀ m ∈ pre, hasToolCalls m = true)
    (hfin : hasToolCalls fin = false)
    (hu : userInput ≠ "") :
    ∃ st' conversation',
      SubmitUserInput tools (pre ++ fin :: rest) st conversation userInput =
        (st', some conversation') ∧
      conversation'.length = conversation.length + 2 + 2 * pre.length := by
  obtain ⟨st', conv', heq, hlen⟩ :=
    runLoop_terminates tools pre fin rest st
      (conversation ++ [newUserTextMessage userInput]) hpre hfin
  refine ⟨st', conv', ?_, ?_⟩
  · simpa [SubmitUserInput, hu] using heq
  · simp only [List.length_append, List.length_cons, List.length_nil]
      at hlen
    omega

/-- C4 witness: a script of one tool-calling response followed by a plain
text response terminates with conversation length `0 + 2 + 2 * 1 = 4`. -/
theorem C4_orchestrator_terminates_witness :
    ∃ st' conversation',
      SubmitUserInput [] ([[RespBlock.toolUse "1" "x" Json.null]] ++
          [RespBlock.text "done"] :: [])
        ⟨fun _ => none, fun _ => none⟩ [] "hello" =
        (st', some conversation') ∧
      conversation'.length =
        ([] : List MessageParam).length + 2 +
          2 * ([[RespBlock.toolUse "1" "x" Json.null]] :
            List Response).length :=
  C4_orchestrator_terminates [] [[RespBlock.toolUse "1" "x" Json.null]] []
    [RespBlock.text "done"] ⟨fun _ => none, fun _ => none⟩ [] "hello"
    (fun m hm => by rw [List.mem_singleton] at hm; subst hm; rfl)
    rfl (by decide)

/-- C5: the dispatcher `ExecuteTool` turns an unknown tool name into the
error result "tool not found" and a handler error into an error result
carrying the error's message; in both cases it returns an ordinary
`ToolResult` (as its total return type shows), never a fatal failure. -/
theorem C5_dispatcher_error_results (tools : List ToolDefinition)
    (st : ToolState) (id name : String) (input : Json) :
    (tools.find? (fun t => t.name == name) = none →
      executeTool tools st id name input =
        (st, ⟨id, "tool not found", true⟩)) ∧
    (∀ t st' e, tools.find? (fun t => t.name == name) = some t →
      t.fn st input = (st', .error e) →
      executeTool tools st id name input = (st', ⟨id, e, true⟩)) := by
  constructor
  · intro h
    simp [executeTool, h]
  · intro t st' e hf hr
    simp [executeTool, hf, hr]

/-- C5 witness: against the real registry, the name "does_not_exist"
yields `tool not found`, and `read_file` with an input that decodes to an
empty path yields the handler's error message. -/
theorem C5_dispatcher_error_results_witness :
    executeTool GetAllTools ⟨fun _ => none, fun _ => none⟩ "id1"
        "does_not_exist" (.obj []) =
      (⟨fun _ => none, fun _ => none⟩,
        ⟨"id1", "tool not found", true⟩) ∧
    executeTool GetAllTools ⟨fun _ => none, fun _ => none⟩ "id2"
        "read_file" (.obj []) =
      (⟨fun _ => none, fun _ => none⟩,
        ⟨"id2", "path is required", true⟩) :=
  ⟨(C5_dispatcher_error_results GetAllTools ⟨fun _ => none, fun _ => none⟩
      "id1" "does_not_exist" (.obj [])).1 rfl,
   (C5_dispatcher_error_results GetAllTools ⟨fun _ => none, fun _ => none⟩
      "id2" "read_file" (.obj [])).2 ReadFileDefinition
      ⟨fun _ => none, fun _ => none⟩ "path is required" rfl rfl⟩

/-- C6 (code bug): in the `main.go` revision, `ReadFile` panics when its
raw input fails to decode (here: a JSON string where an object is
expected), crashing the process, while the `tools` package revision of the
same handler returns an error that the dispatcher folds into an error
`ToolResult`. -/
theorem C6_decode_failure_panics :
    ReadFileMain (fun _ => none) (.str "5") =
      .panicked "json: cannot unmarshal value into ReadFileInput" ∧
    ReadFile ⟨fun _ => none, fun _ => none⟩ (.str "5") =
      (⟨fun _ => none, fun _ => none⟩,
       .error
         "failed to parse input: json: cannot unmarshal value into ReadFileInput") :=
  ⟨rfl, rfl⟩

/-- C7: after a completed model turn with zero tool_use blocks the loop
stops, appending nothing beyond the model turn itself; with one or more it
appends exactly one user turn of tool results — one per invocation, in
invocation order, as the id correspondence shows — before the next
inference call. -/
theorem C7_dispatch_phase (tools : List ToolDefinition) (st : ToolState)
    (conversation : List MessageParam) (m : Response)
    (rest : List Response) :
    (hasToolCalls m = false →
      runLoop tools (m :: rest) st conversation =
        (st, some (conversation ++ [toParam m]))) ∧
    (hasToolCalls m = true →
      runLoop tools (m :: rest) st conversation =
        runLoop tools rest (dispatchTools tools st m).1
          (conversation ++ [toParam m,
            newUserToolResults (dispatchTools tools st m).2])) ∧
    ((dispatchTools tools st m).2.map ToolResult.id = toolUseIds m) :=
  ⟨fun h => runLoop_step_no_tools tools m rest st conversation h,
   fun h => runLoop_step_tools tools m rest st conversation h,
   dispatchTools_ids tools m st⟩

/-- C7 witness: a text-only turn ends the loop with only the model turn
appended; a turn with one tool call recurses after appending the model
turn and one tool-result user turn. -/
theorem C7_dispatch_phase_witness :
    runLoop [] [[RespBlock.text "hi"]] ⟨fun _ => none, fun _ => none⟩ [] =
      (⟨fun _ => none, fun _ => none⟩,
        some ([] ++ [toParam [RespBlock.text "hi"]])) ∧
    runLoop [] [[RespBlock.toolUse "1" "x" Json.null]]
        ⟨fun _ => none, fun _ => none⟩ [] =
      runLoop [] []
        (dispatchTools [] ⟨fun _ => none, fun _ => none⟩
          [RespBlock.toolUse "1" "x" Json.null]).1
        ([] ++ [toParam [RespBlock.toolUse "1" "x" Json.null],
          newUserToolResults
            (dispatchTools [] ⟨fun _ => none, fun _ => none⟩
              [RespBlock.toolUse "1" "x" Json.null]).2]) :=
  ⟨(C7_dispatch_phase [] ⟨fun _ => none, fun _ => none⟩ []
      [RespBlock.text "hi"] []).1 rfl,
   (C7_dispatch_phase [] ⟨fun _ => none, fun _ => none⟩ []
      [RespBlock.toolUse "1" "x" Json.null] []).2.1 rfl⟩

/-- C8: for one model response, the concatenation in delivery order of all
text fragments handed to the consumer equals the text of the materialized
final message — no fragment duplicated, dropped, or interleaved with
non-delta content. -/
theorem C8_stream_concat (events : List StreamEvent) :
    ((RunInferenceWithStreaming events).1).flatten =
      (RunInferenceWithStreaming events).2 :=
  streamRun_concat events [] [] rfl

/-- C9, counterexample to the claim as stated.  The claim says applying an
edit performs no file-system writes itself (writing the result is the
caller's responsibility); but `EditFile` itself rewrites the file at the
instruction's path: after the call the file `a.txt` holds `y`, not its
prior content `x`. -/
theorem C9_counterexample :
    ((fun p => if p = "a.txt" then some ['x'] else none : FS) "a.txt" =
      some ['x']) ∧
    (EditFile (fun p => if p = "a.txt" then some ['x'] else none)
      ⟨"a.txt", "replace", ['x'], ['y'], none⟩).1 "a.txt" = some ['y'] :=
  ⟨rfl, rfl⟩

/-- C9 (amended): `EditFile` itself reads the file at `input.path` before
editing and itself writes the new content back on success (one read
before, one write after); every error leaves the file system unchanged;
and the transformation applied between the read and the write is the pure
function `applyEdit` of the current content and the instruction alone. -/
theorem C9_read_write_decomposition (fs : FS) (input : EditFileInput) :
    EditFile fs input =
      if input.path = "" then (fs, .error "path is required")
      else if input.mode = "" then (fs, .error "mode is required")
      else if !(validModes.contains input.mode) then
        (fs, .error ("invalid mode: " ++ input.mode ++
          ". Valid modes are: " ++ String.intercalate ", " validModes))
      else
        match fs input.path with
        | none => (fs, .error "failed to read file")
        | some content =>
          match applyEdit content input with
          | .error e => (fs, .error e)
          | .ok (c, msg) => (writeFS fs input.path c, .ok msg) := by
  by_cases h1 : input.path = ""
  · simp [EditFile, h1]
  · by_cases h2 : input.mode = ""
    · simp [EditFile, h1, h2]
    · by_cases h3 : validModes.contains input.mode = true
      · have h3m : input.mode ∈ validModes := by simpa using h3
        rcases hfs : fs input.path with _ | content
        · simp [EditFile, h1, h2, h3, h3m, hfs]
        · rw [editFile_decomposes fs input content h1 h3 hfs]
          simp [h1, h2, h3m, hfs]
      · have h3m : input.mode ∉ validModes := by simpa using h3
        simp [EditFile, h1, h2, h3, h3m]

/-- C10: when the `recursive` field is absent from a `list_files` input,
the decoded input has `recursive = false` and the listing behaves exactly
as with an explicit `recursive = false` — despite the schema description
announcing a default of true, the recursive branch runs only when the
input explicitly sets `recursive` to true. -/
theorem C10_recursive_default_false (st : ToolState)
    (fields : List (String × Json))
    (hno : fields.lookup "recursive" = none) :
    (∀ inp, decodeListFilesInput (.obj fields) = .ok inp →
      inp.recursive = false) ∧
    ListFiles st (.obj fields) =
      ListFiles st (.obj (("recursive", .bool false) :: fields)) := by
  have hb : getBoolField fields "recursive" = .ok false := by
    simp [getBoolField, hno]
  have hdec :
      decodeListFilesInput (.obj (("recursive", Json.bool false) :: fields)) =
        decodeListFilesInput (.obj fields) := by
    simp [decodeListFilesInput, getStrField, getBoolField, getOptIntField,
      List.lookup, hno]
  constructor
  · intro inp h
    rcases hp : getStrField fields "path" with e | pv
    · simp [decodeListFilesInput, hp] at h
    · rcases hd : getOptIntField fields "max_depth" with e2 | dv
      · simp [decodeListFilesInput, hp, hb, hd] at h
      · simp only [decodeListFilesInput, hp, hb, hd, Except.ok.injEq] at h
        subst h
        rfl
  · simp only [ListFiles, hdec]

/-- C10 witness: listing the directory `d` with no `recursive` field and
with an explicit `recursive = false` gives identical results. -/
theorem C10_recursive_default_false_witness :
    ListFiles
      ⟨fun _ => none,
       fun p => if p = "d" then some [Entry.file "a", Entry.dir "b" []]
         else none⟩
      (.obj [("path", .str "d")]) =
    ListFiles
      ⟨fun _ => none,
       fun p => if p = "d" then some [Entry.file "a", Entry.dir "b" []]
         else none⟩
      (.obj [("recursive", .bool false), ("path", .str "d")]) :=
  (C10_recursive_default_false
    ⟨fun _ => none,
     fun p => if p = "d" then some [Entry.file "a", Entry.dir "b" []]
       else none⟩
    [("path", Json.str "d")] rfl).2

end CliAgent
